import Mathlib

/-!
Verification development for the TURF engine of `src/turf.py` (function `turf`).

The embedding is a direct translation of `turf.py`:

* a pandas `DataFrame` becomes `DataFrame K`: a list of column labels together
  with a list of rows, each row a function from column label to `Option K`
  (`none` models a missing value / NaN cell);
* numeric cell values, weights and scores live in an arbitrary linear ordered
  commutative ring `K` (the Python code computes with floats but performs only
  additions, multiplications, maxima and comparisons, so the embedding is
  stated for any such ring; concrete witnesses use `K = ℤ`);
* fallible steps (`raise` in Python, pandas `KeyError` on selecting an absent
  column, pandas length-mismatch on `assign`) return `Except String`;
* `heapq`'s bounded min-heap is modelled by the sorted list of its elements:
  `heappush` inserts, `heappushpop` replaces the minimum when the pushed item
  is strictly greater.  These are exactly the multiset transformations the two
  `heapq` calls perform; the binary-heap array layout only influences the
  relative order of rows that tie on `(Reach, Frequency)` after the final
  sort, which no property below depends on;
* `sort_values(by=["Reach", "Frequency"], ascending=False)` (a stable
  lexicographic sort in pandas) is modelled by a stable insertion sort on the
  descending `(reach, frequency)` order.
-/

variable {K : Type*} [LinearOrderedCommRing K]

/-- One output row of `turf`: the triple `[reach_scores.sum(), freq_scores.sum(),
", ".join(cols)]` pushed on line 170/172/174 of `turf.py`. -/
@[ext]
structure ScoredCombi (K : Type*) where
  reach : K
  frequency : K
  combination : String
deriving DecidableEq

/-- A pandas DataFrame: named columns and a list of rows.  A row maps a column
label to its cell value, `none` standing for a missing value (NaN). -/
@[ext]
structure DataFrame (K : Type*) where
  cols : List String
  rows : List (String → Option K)

/-- The `weights` argument of `turf` (line 16): `None`, an external
list/array of per-row weights, or the name of a weight column. -/
inductive Weights (K : Type*) where
  | default : Weights K
  | external : List K → Weights K
  | col : String → Weights K

/-- The dummy weight-column name hard-coded on line 128 of `turf.py`. -/
def wdummy : String := "_weight_dummy"

/-- Line 129, `data.assign(_weight_dummy=weights)` with a scalar weight
(`weights = 1` after line 127): every row gets the scalar in column
`_weight_dummy`; an existing `_weight_dummy` column is overwritten. -/
def DataFrame.assignScalar (df : DataFrame K) (w : K) : DataFrame K where
  cols := if wdummy ∈ df.cols then df.cols else df.cols ++ [wdummy]
  rows := df.rows.map (fun r => fun c => if c = wdummy then some w else r c)

/-- Line 129, `data.assign(_weight_dummy=weights)` with a list/array of
weights, aligned positionally with the rows. -/
def DataFrame.assignVector (df : DataFrame K) (ws : List K) : DataFrame K where
  cols := if wdummy ∈ df.cols then df.cols else df.cols ++ [wdummy]
  rows := (df.rows.zip ws).map (fun p => fun c => if c = wdummy then some p.2 else p.1 c)

/-- Column projection `constructed_data[cs]` (line 149). -/
def DataFrame.select (df : DataFrame K) (cs : List String) : DataFrame K where
  cols := cs
  rows := df.rows

/-- Lines 125-132: resolve the weight source.  `None` becomes the scalar 1
assigned to `_weight_dummy`; a list is assigned positionally (pandas raises
when its length differs from the number of rows); otherwise `weights` names
the weight column and the data is used as is (`data.copy()`). -/
def resolveWeights (df : DataFrame K) (weights : Weights K) :
    Except String (DataFrame K × String) :=
  match weights with
  | .default => .ok (df.assignScalar 1, wdummy)
  | .external ws =>
      if ws.length = df.rows.length then .ok (df.assignVector ws, wdummy)
      else .error "Length of values does not match length of index"
  | .col c => .ok (df, c)

/-- Line 153, `constructed_data[constructed_data[col]==1][weight_col].sum()`:
the sum of the weight column over the rows whose `col` cell equals 1
(missing weight cells contribute 0, as pandas `sum` skips NaN). -/
def weightedPositiveSum (df : DataFrame K) (weight_col col : String) : K :=
  ((df.rows.filter (fun r => decide (r col = some 1))).map
    (fun r => (r weight_col).getD 0)).sum

/-- Maximum of a list of cell values, `none` on the empty list: pandas
`max(axis=1)` over the non-missing cells of a row. -/
def rowMax : List K → Option K
  | [] => none
  | v :: vs =>
    match rowMax vs with
    | none => some v
    | some m => some (max v m)

/-- One row's contribution to `reach_scores` (line 166):
`constructed_data[cols].max(axis=1) * constructed_data[weight_col]`.
`max(axis=1)` skips missing cells and is NaN when all are missing; a NaN
factor drops the row from the later `.sum()`, hence the row contributes 0
unless both the max and the weight exist. -/
def reachRow (r : String → Option K) (weight_col : String) (cols : List String) : K :=
  match rowMax (cols.filterMap r), r weight_col with
  | some m, some w => m * w
  | _, _ => 0

/-- One row's contribution to `freq_scores` (line 167):
`constructed_data[cols].sum(axis=1) * constructed_data[weight_col]`.
`sum(axis=1)` skips missing cells (an all-missing row sums to 0); a missing
weight makes the product NaN, dropping the row from the later `.sum()`. -/
def freqRow (r : String → Option K) (weight_col : String) (cols : List String) : K :=
  match r weight_col with
  | some w => (cols.filterMap r).sum * w
  | none => 0

/-- Lines 166-167 and 170: score one full combination, producing the triple
`[reach_scores.sum(), freq_scores.sum(), ", ".join(cols)]`. -/
def scoreCombi (df : DataFrame K) (weight_col : String) (cols : List String) :
    ScoredCombi K where
  reach := (df.rows.map (fun r => reachRow r weight_col cols)).sum
  frequency := (df.rows.map (fun r => freqRow r weight_col cols)).sum
  combination := String.intercalate ", " cols

/-- Lines 150-155: the eligible enumeration pool.  Start from `columns`;
if `min_response` is set keep only columns whose weighted positive sum is at
least `min_response`; if `forced_alt` is set remove its members. -/
def filtColumns (constructed : DataFrame K) (weight_col : String)
    (columns : List String) (min_response : Option K)
    (forced_alt : Option (List String)) : List String :=
  let f1 :=
    match min_response with
    | none => columns
    | some m => columns.filter (fun c => decide (m ≤ weightedPositiveSum constructed weight_col c))
  match forced_alt with
  | none => f1
  | some f => f1.filter (fun c => !(f.contains c))

/-- Lines 151 and 156: `updated_size = size - len(forced_alt)` (or `size`). -/
def updatedSize (size : Int) (forced_alt : Option (List String)) : Int :=
  match forced_alt with
  | none => size
  | some f => size - f.length

/-- Model of `itertools.combinations` (line 159): all k-element sublists in
lexicographic order of positions. -/
def combinations : List String → Nat → List (List String)
  | _, 0 => [[]]
  | [], _ + 1 => []
  | c :: cs, k + 1 =>
      ((combinations cs k).map (fun t => c :: t)) ++ combinations cs (k + 1)

/-- Line 164: the full combination contains more than one member of
`mxclusive_alt` (`len(set(cols).intersection(set(mxclusive_alt))) > 1`). -/
def mxViolationB (mx : List String) (cols : List String) : Bool :=
  decide (1 < ((cols.filter (fun c => mx.contains c)).dedup).length)

/-- Line 164 with the `is not None` guard: skip the combination only when
`mxclusive_alt` is given and violated. -/
def mxSkipB (mx : Option (List String)) (cols : List String) : Bool :=
  match mx with
  | some m => mxViolationB m cols
  | none => false

/-- Membership test `set(l).issubset(set(cols))` as a Bool (lines 136-141). -/
def subsetB (l cols : List String) : Bool := l.all (fun c => cols.contains c)

/-- Lines 138-141: an optional column list is given and is not a subset of
the data's columns. -/
def optNotSubsetB (o : Option (List String)) (cols : List String) : Bool :=
  match o with
  | some f => !(subsetB f cols)
  | none => false

/-- Line 142: both optional lists are given and are not disjoint. -/
def overlapB (fa mx : Option (List String)) : Bool :=
  match fa, mx with
  | some f, some m => f.any (fun c => m.contains c)
  | _, _ => false

/-- Line 146: `forced_alt` is given and longer than `columns` or than `size`. -/
def forcedSizeViolB (fa : Option (List String)) (columns : List String) (size : Int) : Bool :=
  match fa with
  | some f => decide ((columns.length : Int) < (f.length : Int)) || decide (size < (f.length : Int))
  | none => false

/-- Lines 160-174 without the top-k bookkeeping: walk the enumerated
combinations in order, append `forced_alt`, drop mutual-exclusivity
violations, and score the rest.  Selecting a column absent from the
projected data (possible when `forced_alt` mentions a data column that is
not in `columns`) is a pandas `KeyError`, modelled as an error; as in
Python, the first failing combination aborts the whole call. -/
def scoreCombis (df : DataFrame K) (weight_col : String)
    (forced_alt mxclusive_alt : Option (List String)) :
    List (List String) → Except String (List (ScoredCombi K))
  | [] => .ok []
  | combi :: rest =>
    let cols := combi ++ forced_alt.getD []
    if mxSkipB mxclusive_alt cols then
      scoreCombis df weight_col forced_alt mxclusive_alt rest
    else if subsetB cols df.cols then
      match scoreCombis df weight_col forced_alt mxclusive_alt rest with
      | .ok l => .ok (scoreCombi df weight_col cols :: l)
      | .error e => .error e
    else .error "KeyError: combination column not in index"

/-- Python list comparison on the heap entries `[reach, frequency, label]`:
strict lexicographic order, the label compared as a string. -/
def heapLt (a b : ScoredCombi K) : Prop :=
  a.reach < b.reach ∨
    (a.reach = b.reach ∧
      (a.frequency < b.frequency ∨
        (a.frequency = b.frequency ∧ a.combination < b.combination)))

instance : DecidableRel (heapLt (K := K)) := fun a b => by
  unfold heapLt
  infer_instance

/-- The corresponding non-strict order (`a` is not above `b`). -/
def heapLe (a b : ScoredCombi K) : Prop := ¬ heapLt b a

instance : DecidableRel (heapLe (K := K)) := fun a b => by
  unfold heapLe
  infer_instance

/-- Model of `heapq.heappush` (line 170) on the sorted-list heap:
insert the item, keeping the list ascending. -/
def heappush (heap : List (ScoredCombi K)) (item : ScoredCombi K) :
    List (ScoredCombi K) :=
  List.orderedInsert heapLe item heap

/-- Model of `heapq.heappushpop` (line 172) on the sorted-list heap:
when the current minimum is strictly below the pushed item, replace it;
otherwise the heap is unchanged (on an empty heap the item is returned
immediately and the heap stays empty). -/
def heappushpop (heap : List (ScoredCombi K)) (item : ScoredCombi K) :
    List (ScoredCombi K) :=
  match heap with
  | [] => []
  | m :: rest => if heapLt m item then List.orderedInsert heapLe item rest else m :: rest

/-- One iteration of the selection on lines 168-174: push while fewer than
`top` items are held, push-pop once the bound is reached. -/
def heapStep (t : Nat) (heap : List (ScoredCombi K)) (s : ScoredCombi K) :
    List (ScoredCombi K) :=
  if heap.length < t then heappush heap s else heappushpop heap s

/-- Lines 168-174: with `top` unset every scored combination is collected in
order; with `top = t` a bounded heap of at most `t` entries is maintained. -/
def selectTop (top : Option Nat) (scored : List (ScoredCombi K)) :
    List (ScoredCombi K) :=
  match top with
  | none => scored
  | some t => scored.foldl (heapStep t) []

/-- The final ordering of line 176, `sort_values(by=["Reach", "Frequency"],
ascending=False)`: `a` may precede `b` iff `(b.reach, b.frequency)` is
lexicographically at most `(a.reach, a.frequency)`. -/
def sortRel (a b : ScoredCombi K) : Prop :=
  b.reach < a.reach ∨ (a.reach = b.reach ∧ b.frequency ≤ a.frequency)

instance : DecidableRel (sortRel (K := K)) := fun a b => by
  unfold sortRel
  infer_instance

/-- Lines 109-160 of `turf`: validation, weight resolution, eligibility
filtering, enumeration and scoring — everything up to (and excluding) the
top-k selection and the final sort.  The checks appear in source order;
`isinstance` checks hold by typing.  A negative enumeration size is the
`ValueError` `itertools.combinations` raises on line 159. -/
def turfScored (data : DataFrame K) (columns : List String) (size : Int)
    (weights : Weights K) (min_response : Option K)
    (forced_alt mxclusive_alt : Option (List String)) :
    Except String (List (ScoredCombi K)) :=
  match resolveWeights data weights with
  | .error e => .error e
  | .ok (constructed0, weight_col) =>
    if ¬ weight_col ∈ constructed0.cols then
      .error "Given weight column is not present in data"
    else if ¬ subsetB columns constructed0.cols then
      .error "columns is not subset of data"
    else if optNotSubsetB forced_alt constructed0.cols then
      .error "forced_alt is not subset in data"
    else if optNotSubsetB mxclusive_alt constructed0.cols then
      .error "mxclusive_alt is not subset in data"
    else if overlapB forced_alt mxclusive_alt then
      .error "mxclusive_alt should not have common elements in forced_alt"
    else if (columns.length : Int) < size then
      .error "size should be lesser than the total number of columns"
    else if forcedSizeViolB forced_alt columns size then
      .error "Number of forced_alt should be lesser than size and the total number of columns"
    else if updatedSize size forced_alt < 0 then
      .error "r must be non-negative"
    else
      scoreCombis (constructed0.select (columns ++ [weight_col])) weight_col
        forced_alt mxclusive_alt
        (combinations
          (filtColumns (constructed0.select (columns ++ [weight_col])) weight_col
            columns min_response forced_alt)
          (updatedSize size forced_alt).toNat)

/-- The full `turf` call (lines 109-176): validate, resolve, enumerate and
score, select the top combinations when `top` is set, and sort the result
descending by `(Reach, Frequency)` with a stable sort. -/
def turf (data : DataFrame K) (columns : List String) (size : Int)
    (weights : Weights K) (min_response : Option K)
    (forced_alt mxclusive_alt : Option (List String)) (top : Option Nat) :
    Except String (List (ScoredCombi K)) :=
  match turfScored data columns size weights min_response forced_alt mxclusive_alt with
  | .error e => .error e
  | .ok scored => .ok (List.insertionSort sortRel (selectTop top scored))

/-! ### Concrete tables for the spec's scenarios -/

/-- A row of a three-column table with columns `P`, `Q`, `R`. -/
def mkRow3 (p q r : Option ℤ) : String → Option ℤ := fun c =>
  if c = "P" then p else if c = "Q" then q else if c = "R" then r else none

/-- Scenario A of the spec (§8): five respondents, columns `P`, `Q`, `R`,
values `P=[1,0,1,0,0]`, `Q=[0,1,0,1,0]`, `R=[1,1,0,0,0]`. -/
def Adf : DataFrame ℤ where
  cols := ["P", "Q", "R"]
  rows := [mkRow3 (some 1) (some 0) (some 1),
           mkRow3 (some 0) (some 1) (some 1),
           mkRow3 (some 1) (some 0) (some 0),
           mkRow3 (some 0) (some 1) (some 0),
           mkRow3 (some 0) (some 0) (some 0)]

/-- A row of a three-column table with columns `F`, `G`, `H`. -/
def mkRowFGH (f g h : Option ℤ) : String → Option ℤ := fun c =>
  if c = "F" then f else if c = "G" then g else if c = "H" then h else none

/-- A two-respondent table where column `F` has weighted positive sum 1 and
columns `G`, `H` have weighted positive sum 2: with `min_response = 2` the
column `F` fails the minimum-response filter. -/
def Bdf : DataFrame ℤ where
  cols := ["F", "G", "H"]
  rows := [mkRowFGH (some 1) (some 1) (some 1),
           mkRowFGH (some 0) (some 1) (some 1)]

/-! ### The heap order and the output order

The Python heap compares entries `[reach, frequency, label]` by list order,
i.e. lexicographically; the final `sort_values` orders by
`(Reach, Frequency)` lexicographically.  Both are transported to
`Prod.Lex` orders so that Mathlib's order lemmas apply. -/

/-- The heap entry of a scored combination as a lexicographically ordered
triple. -/
def hkey (a : ScoredCombi K) : K ×ₗ (K ×ₗ String) :=
  toLex (a.reach, toLex (a.frequency, a.combination))

/-- The `(reach, frequency)` pair of a scored combination as a
lexicographically ordered pair. -/
def pkey (a : ScoredCombi K) : K ×ₗ K :=
  toLex (a.reach, a.frequency)

/-- The lexicographic pair order on `(reach, frequency)`: the order the
spec's "strictly greater pair" and "weakest returned combination" refer
to. -/
def pairLe (a b : ScoredCombi K) : Prop :=
  a.reach < b.reach ∨ (a.reach = b.reach ∧ a.frequency ≤ b.frequency)

theorem heapLt_iff_hkey {a b : ScoredCombi K} : heapLt a b ↔ hkey a < hkey b := by
  simp [heapLt, hkey, Prod.Lex.lt_iff]

theorem heapLe_iff_hkey {a b : ScoredCombi K} : heapLe a b ↔ hkey a ≤ hkey b := by
  rw [heapLe, heapLt_iff_hkey, not_lt]

theorem pairLe_iff_pkey {a b : ScoredCombi K} : pairLe a b ↔ pkey a ≤ pkey b := by
  simp [pairLe, pkey, Prod.Lex.le_iff]

theorem sortRel_iff_pkey {a b : ScoredCombi K} : sortRel a b ↔ pkey b ≤ pkey a := by
  simp [sortRel, pkey, Prod.Lex.le_iff]
  tauto

instance : IsTotal (ScoredCombi K) heapLe :=
  ⟨fun a b => by rw [heapLe_iff_hkey, heapLe_iff_hkey]; exact le_total _ _⟩

instance : IsTrans (ScoredCombi K) heapLe :=
  ⟨fun _ _ _ hab hbc =>
    heapLe_iff_hkey.mpr (le_trans (heapLe_iff_hkey.mp hab) (heapLe_iff_hkey.mp hbc))⟩

instance : IsTotal (ScoredCombi K) sortRel :=
  ⟨fun a b => by rw [sortRel_iff_pkey, sortRel_iff_pkey]; exact (le_total _ _).symm⟩

instance : IsTrans (ScoredCombi K) sortRel :=
  ⟨fun _ _ _ hab hbc =>
    sortRel_iff_pkey.mpr (le_trans (sortRel_iff_pkey.mp hbc) (sortRel_iff_pkey.mp hab))⟩

theorem heapLe_refl (a : ScoredCombi K) : heapLe a a :=
  heapLe_iff_hkey.mpr le_rfl

theorem heapLe_of_heapLt {a b : ScoredCombi K} (h : heapLt a b) : heapLe a b :=
  heapLe_iff_hkey.mpr (le_of_lt (heapLt_iff_hkey.mp h))

theorem pairLe_of_heapLe {a b : ScoredCombi K} (h : heapLe a b) : pairLe a b := by
  rcases lt_trichotomy a.reach b.reach with h1 | h1 | h1
  · exact Or.inl h1
  · refine Or.inr ⟨h1, ?_⟩
    by_contra hf
    exact h (Or.inr ⟨h1.symm, Or.inl (lt_of_not_le hf)⟩)
  · exact absurd (Or.inl h1 : heapLt b a) h

theorem pairLe_trans {a b c : ScoredCombi K} (hab : pairLe a b) (hbc : pairLe b c) :
    pairLe a c :=
  pairLe_iff_pkey.mpr (le_trans (pairLe_iff_pkey.mp hab) (pairLe_iff_pkey.mp hbc))

/-! ### Properties of the bounded heap -/

theorem mem_heappush {heap : List (ScoredCombi K)} {i x : ScoredCombi K} :
    x ∈ heappush heap i ↔ x = i ∨ x ∈ heap :=
  List.mem_orderedInsert heapLe

theorem length_heappush (heap : List (ScoredCombi K)) (i : ScoredCombi K) :
    (heappush heap i).length = heap.length + 1 :=
  List.orderedInsert_length heapLe heap i

theorem sorted_heappush {heap : List (ScoredCombi K)} (i : ScoredCombi K)
    (h : heap.Sorted heapLe) : (heappush heap i).Sorted heapLe :=
  List.Sorted.orderedInsert i heap h

theorem mem_heappushpop {heap : List (ScoredCombi K)} {i x : ScoredCombi K}
    (h : x ∈ heappushpop heap i) : x = i ∨ x ∈ heap := by
  match heap with
  | [] => simp [heappushpop] at h
  | m :: rest =>
    rw [heappushpop] at h
    split at h
    · rcases (List.mem_orderedInsert heapLe).mp h with h | h
      · exact Or.inl h
      · exact Or.inr (List.mem_cons_of_mem m h)
    · exact Or.inr h

theorem length_heappushpop (heap : List (ScoredCombi K)) (i : ScoredCombi K) :
    (heappushpop heap i).length = heap.length := by
  match heap with
  | [] => rfl
  | m :: rest =>
    rw [heappushpop]
    split
    · rw [List.orderedInsert_length heapLe rest i, List.length_cons]
    · rfl

theorem sorted_heappushpop {heap : List (ScoredCombi K)} (i : ScoredCombi K)
    (h : heap.Sorted heapLe) : (heappushpop heap i).Sorted heapLe := by
  match heap with
  | [] => exact List.sorted_nil
  | m :: rest =>
    rw [heappushpop]
    split
    · exact List.Sorted.orderedInsert i rest h.of_cons
    · exact h

theorem mem_heapStep {t : Nat} {heap : List (ScoredCombi K)} {s x : ScoredCombi K}
    (h : x ∈ heapStep t heap s) : x = s ∨ x ∈ heap := by
  rw [heapStep] at h
  split at h
  · exact mem_heappush.mp h
  · exact mem_heappushpop h

theorem mem_foldl_heapStep {t : Nat} {x : ScoredCombi K} :
    ∀ (l heap : List (ScoredCombi K)), x ∈ l.foldl (heapStep t) heap →
      x ∈ heap ∨ x ∈ l := by
  intro l
  induction l with
  | nil => intro heap h; exact Or.inl h
  | cons s rest ih =>
    intro heap h
    rw [List.foldl_cons] at h
    rcases ih (heapStep t heap s) h with h | h
    · rcases mem_heapStep h with h | h
      · exact Or.inr (by simp [h])
      · exact Or.inl h
    · exact Or.inr (List.mem_cons_of_mem s h)

/-- Every row the selection stage keeps was one of the scored combinations. -/
theorem mem_selectTop {top : Option Nat} {scored : List (ScoredCombi K)}
    {x : ScoredCombi K} (h : x ∈ selectTop top scored) : x ∈ scored := by
  match top with
  | none => exact h
  | some t =>
    rcases mem_foldl_heapStep scored [] h with h | h
    · simp at h
    · exact h

/-- Invariant of the bounded-heap selection loop: after the items `seen`
have been processed, the heap is sorted ascending, holds
`min t |seen|` of the seen items, and every seen item is either still in
the heap or was rejected/evicted when the heap was full at a minimum that
dominates it. -/
def HeapInv (t : Nat) (seen heap : List (ScoredCombi K)) : Prop :=
  heap.Sorted heapLe ∧
  heap.length = min t seen.length ∧
  (∀ x ∈ heap, x ∈ seen) ∧
  (∀ s ∈ seen, s ∈ heap ∨
    (heap.length = t ∧ ∃ h0, heap.head? = some h0 ∧ heapLe s h0))

theorem heapInv_step {t : Nat} (ht : 0 < t) {seen heap : List (ScoredCombi K)}
    (inv : HeapInv t seen heap) (s : ScoredCombi K) :
    HeapInv t (seen ++ [s]) (heapStep t heap s) := by
  obtain ⟨hsort, hlen, hmem, hdom⟩ := inv
  rw [heapStep]
  by_cases hlt : heap.length < t
  · rw [if_pos hlt]
    refine ⟨sorted_heappush s hsort, ?_, ?_, ?_⟩
    · rw [length_heappush, hlen, List.length_append, List.length_singleton]
      omega
    · intro x hx
      rcases mem_heappush.mp hx with h | h
      · simp [h]
      · exact List.mem_append_left _ (hmem x h)
    · intro q hq
      rcases List.mem_append.mp hq with hq | hq
      · rcases hdom q hq with hin | ⟨hfull, _⟩
        · exact Or.inl (mem_heappush.mpr (Or.inr hin))
        · omega
      · rw [List.mem_singleton] at hq
        exact Or.inl (mem_heappush.mpr (Or.inl hq))
  · rw [if_neg hlt]
    have hfull : heap.length = t := by omega
    match heap, hsort with
    | [], _ => simp at hfull; omega
    | m :: rest, hsort =>
      rw [heappushpop]
      by_cases hmi : heapLt m s
      · rw [if_pos hmi]
        have hsort' := List.Sorted.orderedInsert (r := heapLe) s rest hsort.of_cons
        have hne : List.orderedInsert heapLe s rest ≠ [] := by
          have := List.orderedInsert_length heapLe rest s
          intro hnil
          rw [hnil] at this
          simp at this
        obtain ⟨h0, tl, he⟩ := List.exists_cons_of_ne_nil hne
        have hh0 : (List.orderedInsert heapLe s rest).head? = some h0 := by
          rw [he]; rfl
        have hmh0 : heapLe m h0 := by
          have h0mem : h0 ∈ List.orderedInsert heapLe s rest := by
            rw [he]; exact List.mem_cons_self h0 tl
          rcases (List.mem_orderedInsert heapLe).mp h0mem with h | h
          · rw [h]; exact heapLe_of_heapLt hmi
          · exact List.rel_of_sorted_cons hsort h0 h
        have hlen' : (List.orderedInsert heapLe s rest).length = t := by
          rw [List.orderedInsert_length heapLe rest s]
          simpa using hfull
        refine ⟨hsort', ?_, ?_, ?_⟩
        · rw [hlen', List.length_append, List.length_singleton]
          have : t ≤ seen.length := by omega
          omega
        · intro x hx
          rcases (List.mem_orderedInsert heapLe).mp hx with h | h
          · simp [h]
          · exact List.mem_append_left _ (hmem x (List.mem_cons_of_mem m h))
        · intro q hq
          rcases List.mem_append.mp hq with hq | hq
          · rcases hdom q hq with hin | ⟨_, h0', hh0', hle'⟩
            · rcases List.mem_cons.mp hin with hqm | hqr
              · exact Or.inr ⟨hlen', h0, hh0, by rw [hqm]; exact hmh0⟩
              · exact Or.inl ((List.mem_orderedInsert heapLe).mpr (Or.inr hqr))
            · have hm : h0' = m := by
                rw [List.head?_cons] at hh0'
                exact (Option.some.injEq _ _ ▸ hh0').symm
              refine Or.inr ⟨hlen', h0, hh0, ?_⟩
              exact Trans.trans (hm ▸ hle') hmh0
          · rw [List.mem_singleton] at hq
            exact Or.inl ((List.mem_orderedInsert heapLe).mpr (Or.inl hq))
      · rw [if_neg hmi]
        refine ⟨hsort, ?_, ?_, ?_⟩
        · rw [hfull, List.length_append, List.length_singleton]
          have : t ≤ seen.length := by omega
          omega
        · intro x hx
          exact List.mem_append_left _ (hmem x hx)
        · intro q hq
          rcases List.mem_append.mp hq with hq | hq
          · rcases hdom q hq with hin | ⟨_, h0', hh0', hle'⟩
            · exact Or.inl hin
            · exact Or.inr ⟨hfull, h0', hh0', hle'⟩
          · rw [List.mem_singleton] at hq
            refine Or.inr ⟨hfull, m, List.head?_cons, ?_⟩
            rw [hq]
            exact hmi

theorem heapInv_foldl {t : Nat} (ht : 0 < t) :
    ∀ (l seen heap : List (ScoredCombi K)), HeapInv t seen heap →
      HeapInv t (seen ++ l) (l.foldl (heapStep t) heap) := by
  intro l
  induction l with
  | nil => intro seen heap inv; simpa using inv
  | cons s rest ih =>
    intro seen heap inv
    rw [List.foldl_cons]
    have h := ih (seen ++ [s]) (heapStep t heap s) (heapInv_step ht inv s)
    simpa [List.append_assoc] using h

theorem heapInv_nil (t : Nat) : HeapInv (K := K) t [] [] := by
  refine ⟨List.sorted_nil, by simp, by simp, by simp⟩

/-- What the bounded selection keeps with `top = t`: sorted ascending in the
heap order, exactly `min t n` of the `n` scored combinations, all of them
scored, and every scored combination left out is dominated (in the pair
order) by everything kept. -/
theorem selectTop_some_spec {t : Nat} (ht : 0 < t)
    (scored : List (ScoredCombi K)) :
    (selectTop (some t) scored).length = min t scored.length ∧
    (∀ s ∈ scored, s ∉ selectTop (some t) scored →
      ∀ w ∈ selectTop (some t) scored, pairLe s w) := by
  have inv := heapInv_foldl ht scored [] [] (heapInv_nil t)
  rw [List.nil_append] at inv
  have hsel : selectTop (some t) scored = scored.foldl (heapStep t) [] := rfl
  rw [← hsel] at inv
  obtain ⟨hsort, hlen, _, hdom⟩ := inv
  refine ⟨hlen, ?_⟩
  intro s hs hout w hw
  rcases hdom s hs with hin | ⟨_, h0, hh0, hle⟩
  · exact absurd hin hout
  · obtain ⟨h0', tl, hmatch⟩ :=
      List.exists_cons_of_ne_nil (l := selectTop (some t) scored)
        (by intro hnil; rw [hnil] at hh0; simp at hh0)
    rw [hmatch] at hh0 hsort hw
    simp only [List.head?_cons, Option.some.injEq] at hh0
    subst hh0
    have hh0w : heapLe h0' w := by
      rcases List.mem_cons.mp hw with hww | hww
      · rw [hww]; exact heapLe_refl h0'
      · exact List.rel_of_sorted_cons hsort w hww
    exact pairLe_of_heapLe (Trans.trans hle hh0w)

/-! ### Unpacking successful runs -/

theorem scoreCombis_ok_mem {df : DataFrame K} {weight_col : String}
    {forced_alt mxclusive_alt : Option (List String)} :
    ∀ {combos : List (List String)} {l : List (ScoredCombi K)},
      scoreCombis df weight_col forced_alt mxclusive_alt combos = .ok l →
      ∀ x ∈ l, ∃ combi ∈ combos,
        x = scoreCombi df weight_col (combi ++ forced_alt.getD []) ∧
        mxSkipB mxclusive_alt (combi ++ forced_alt.getD []) = false := by
  intro combos
  induction combos with
  | nil =>
    intro l h x hx
    rw [scoreCombis] at h
    obtain rfl : ([] : List (ScoredCombi K)) = l := by
      simpa using h
    simp at hx
  | cons combi rest ih =>
    intro l h x hx
    rw [scoreCombis] at h
    split at h
    · rename_i hskip
      obtain ⟨c, hc, he, hmx⟩ := ih h x hx
      exact ⟨c, List.mem_cons_of_mem combi hc, he, hmx⟩
    · rename_i hskip
      split at h
      · split at h
        · rename_i l' hrest
          obtain rfl : scoreCombi df weight_col (combi ++ forced_alt.getD []) :: l' = l := by
            simpa using h
          rcases List.mem_cons.mp hx with hxh | hxt
          · exact ⟨combi, List.mem_cons_self combi rest, hxh,
              Bool.not_eq_true _ ▸ Bool.of_not_eq_true hskip⟩
          · obtain ⟨c, hc, he, hmx⟩ := ih hrest x hxt
            exact ⟨c, List.mem_cons_of_mem combi hc, he, hmx⟩
        · exact absurd h (by simp)
      · exact absurd h (by simp)

theorem turf_ok_elim {data : DataFrame K} {columns : List String} {size : Int}
    {w : Weights K} {mr : Option K} {fa mx : Option (List String)}
    {top : Option Nat} {res : List (ScoredCombi K)}
    (h : turf data columns size w mr fa mx top = .ok res) :
    ∃ scored, turfScored data columns size w mr fa mx = .ok scored ∧
      res = List.insertionSort sortRel (selectTop top scored) := by
  unfold turf at h
  cases hts : turfScored data columns size w mr fa mx with
  | error e => rw [hts] at h; exact absurd h (by simp)
  | ok scored =>
    rw [hts] at h
    refine ⟨scored, rfl, ?_⟩
    simpa using h.symm

theorem turfScored_ok_elim {data : DataFrame K} {columns : List String}
    {size : Int} {w : Weights K} {mr : Option K} {fa mx : Option (List String)}
    {scored : List (ScoredCombi K)}
    (h : turfScored data columns size w mr fa mx = .ok scored) :
    ∃ c0 wc, resolveWeights data w = .ok (c0, wc) ∧
      scoreCombis (c0.select (columns ++ [wc])) wc fa mx
        (combinations
          (filtColumns (c0.select (columns ++ [wc])) wc columns mr fa)
          (updatedSize size fa).toNat) = .ok scored := by
  unfold turfScored at h
  cases hrw : resolveWeights data w with
  | error e => rw [hrw] at h; exact absurd h (by simp)
  | ok p =>
    obtain ⟨c0, wc⟩ := p
    simp only [hrw] at h
    refine ⟨c0, wc, rfl, ?_⟩
    repeat' split at h
    all_goals first
    | exact h
    | simp at h

/-! ### Characterizing the scorer on 0/1 indicator data -/

theorem rowMax_mem : ∀ {l : List K} {m : K}, rowMax l = some m → m ∈ l := by
  intro l
  induction l with
  | nil => intro m h; simp [rowMax] at h
  | cons v vs ih =>
    intro m h
    rw [rowMax] at h
    split at h
    · rw [Option.some.injEq] at h
      rw [← h]
      exact List.mem_cons_self v vs
    · rename_i m' hm'
      rw [Option.some.injEq] at h
      rcases max_choice v m' with hc | hc
    
      · rw [← h, hc]
        exact List.mem_cons_self v vs
      · rw [← h, hc]
        exact List.mem_cons_of_mem v (ih hm')

theorem rowMax_eq_none {l : List K} : rowMax l = none ↔ l = [] := by
  cases l with
  | nil => simp [rowMax]
  | cons v vs =>
    rw [rowMax]
    constructor
    · intro h
      split at h <;> simp at h
    · intro h
      simp at h

theorem rowMax_eq_one {l : List K} (h01 : ∀ v ∈ l, v = 0 ∨ v = 1)
    (h1 : (1 : K) ∈ l) : rowMax l = some 1 := by
  induction l with
  | nil => simp at h1
  | cons v vs ih =>
    rw [rowMax]
    by_cases hv : (1 : K) ∈ vs
    · rw [ih (fun x hx => h01 x (List.mem_cons_of_mem v hx)) hv]
      rcases h01 v (List.mem_cons_self v vs) with hv0 | hv0 <;>
        simp [hv0, max_eq_right (zero_le_one (α := K)), max_self]
    · have hv1 : v = 1 := by
        rcases List.mem_cons.mp h1 with h | h
        · exact h.symm
        · exact absurd h hv
      cases hmv : rowMax vs with
      | none => simp [hmv, hv1]
      | some m =>
        have hm := rowMax_mem hmv
        rcases h01 m (List.mem_cons_of_mem v hm) with hm0 | hm0
        · simp [hmv, hv1, hm0, max_eq_left (zero_le_one (α := K))]
        · exact absurd (hm0 ▸ hm) hv

theorem rowMax_of_not_one {l : List K} (h01 : ∀ v ∈ l, v = 0 ∨ v = 1)
    (h1 : (1 : K) ∉ l) : rowMax l = none ∨ rowMax l = some 0 := by
  cases hmv : rowMax l with
  | none => exact Or.inl rfl
  | some m =>
    rcases h01 m (rowMax_mem hmv) with hm0 | hm0
    · exact Or.inr (by rw [hm0])
    · exact absurd (hm0 ▸ rowMax_mem hmv) h1

theorem reachRow_eq {r : String → Option K} {weight_col : String} {cols : List String}
    (h01 : ∀ c ∈ cols, r c = none ∨ r c = some 0 ∨ r c = some 1) :
    reachRow r weight_col cols =
      (r weight_col).getD 0 * (if ∃ c ∈ cols, r c = some 1 then 1 else 0) := by
  have hl : ∀ v ∈ cols.filterMap r, v = 0 ∨ v = 1 := by
    intro v hv
    obtain ⟨c, hc, hcv⟩ := List.mem_filterMap.mp hv
    rcases h01 c hc with h | h | h
    · rw [h] at hcv; exact absurd hcv (by simp)
    · rw [h, Option.some.injEq] at hcv; exact Or.inl hcv.symm
    · rw [h, Option.some.injEq] at hcv; exact Or.inr hcv.symm
  have h1iff : (1 : K) ∈ cols.filterMap r ↔ ∃ c ∈ cols, r c = some 1 := by
    simp [List.mem_filterMap]
  unfold reachRow
  cases hw : r weight_col with
  | none => cases hmv : rowMax (cols.filterMap r) <;> simp [hmv]
  | some w =>
    by_cases hex : ∃ c ∈ cols, r c = some 1
    · rw [rowMax_eq_one hl (h1iff.mpr hex)]
      simp [if_pos hex, mul_comm]
    · have hno := rowMax_of_not_one hl (fun h1 => hex (h1iff.mp h1))
      rcases hno with hmv | hmv <;> simp [hmv, if_neg hex]

theorem sum_filterMap_01 {r : String → Option K} :
    ∀ {cols : List String},
      (∀ c ∈ cols, r c = none ∨ r c = some 0 ∨ r c = some 1) →
      (cols.filterMap r).sum =
        ((cols.filter (fun c => decide (r c = some 1))).length : K) := by
  intro cols
  induction cols with
  | nil => simp
  | cons c cs ih =>
    intro h01
    have ht := ih (fun x hx => h01 x (List.mem_cons_of_mem c hx))
    rcases h01 c (List.mem_cons_self c cs) with h | h | h <;>
      simp [List.filterMap_cons, List.filter_cons, h, ht]
    ring

theorem freqRow_eq {r : String → Option K} {weight_col : String} {cols : List String}
    (h01 : ∀ c ∈ cols, r c = none ∨ r c = some 0 ∨ r c = some 1) :
    freqRow r weight_col cols =
      (r weight_col).getD 0 *
        ((cols.filter (fun c => decide (r c = some 1))).length : K) := by
  unfold freqRow
  cases hw : r weight_col with
  | none => simp
  | some w => simp [sum_filterMap_01 h01, mul_comm]

theorem reachRow_le_freqRow {r : String → Option K} {weight_col : String}
    {cols : List String}
    (h01 : ∀ c ∈ cols, r c = none ∨ r c = some 0 ∨ r c = some 1)
    (hw : 0 ≤ (r weight_col).getD 0) :
    reachRow r weight_col cols ≤ freqRow r weight_col cols := by
  unfold reachRow freqRow
  cases hwv : r weight_col with
  | none => cases hmv : rowMax (cols.filterMap r) <;> simp [hmv]
  | some w =>
    have hw' : 0 ≤ w := by simpa [hwv] using hw
    cases hmv : rowMax (cols.filterMap r) with
    | none =>
      rw [rowMax_eq_none] at hmv
      simp [hmv]
    | some m =>
      have h0 : ∀ v ∈ cols.filterMap r, (0 : K) ≤ v := by
        intro v hv
        obtain ⟨c, hc, hcv⟩ := List.mem_filterMap.mp hv
        rcases h01 c hc with h | h | h
        · rw [h] at hcv; exact absurd hcv (by simp)
        · rw [h, Option.some.injEq] at hcv; rw [← hcv]
        · rw [h, Option.some.injEq] at hcv; rw [← hcv]; exact zero_le_one
      have hms := List.single_le_sum h0 m (rowMax_mem hmv)
      simpa using mul_le_mul_of_nonneg_right hms hw'

theorem reachRow_eq_freqRow_single {r : String → Option K} {weight_col : String}
    {c : String} : reachRow r weight_col [c] = freqRow r weight_col [c] := by
  unfold reachRow freqRow
  cases hc : r c <;> cases hw : r weight_col <;>
    simp [List.filterMap_cons, hc, rowMax]

/-! ### Claim theorems -/

/-- C1: on tables whose indicator columns hold only 0/1 (or missing) values,
every scored combination's Reach is the sum over respondents of weight times
the 0/1 indicator that at least one combination column equals 1, and its
Frequency is the sum over respondents of weight times the number of
combination columns equal to 1; on Scenario A's 5-respondent unit-weight
table with columns `[P, Q, R]` and `size = 2`, the scores are
`{P,Q} : (4, 4)`, `{P,R} : (3, 4)`, `{Q,R} : (3, 4)`. -/
theorem reach_frequency_formula_and_scenarioA :
    (∀ (df : DataFrame K) (weight_col : String) (cols : List String),
      (∀ r ∈ df.rows, ∀ c ∈ cols, r c = none ∨ r c = some 0 ∨ r c = some 1) →
      (scoreCombi df weight_col cols).reach =
        (df.rows.map (fun r => (r weight_col).getD 0 *
          (if ∃ c ∈ cols, r c = some 1 then 1 else 0))).sum ∧
      (scoreCombi df weight_col cols).frequency =
        (df.rows.map (fun r => (r weight_col).getD 0 *
          ((cols.filter (fun c => decide (r c = some 1))).length : K))).sum) ∧
    turf Adf ["P", "Q", "R"] 2 .default none none none none =
      .ok [⟨4, 4, "P, Q"⟩, ⟨3, 4, "P, R"⟩, ⟨3, 4, "Q, R"⟩] := by
  constructor
  · intro df weight_col cols h01
    constructor
    · exact congrArg List.sum
        (List.map_congr_left (fun r hr => reachRow_eq (h01 r hr)))
    · exact congrArg List.sum
        (List.map_congr_left (fun r hr => freqRow_eq (h01 r hr)))
  · rfl

/-- Witness for C1: the Reach/Frequency formulas instantiated on Scenario A's
table (with the unit weight column attached) and the combination `[P, Q]`. -/
theorem reach_frequency_formula_witness :
    (scoreCombi (Adf.assignScalar 1) wdummy ["P", "Q"]).reach =
      ((Adf.assignScalar 1).rows.map (fun r => (r wdummy).getD 0 *
        (if ∃ c ∈ ["P", "Q"], r c = some 1 then 1 else 0))).sum ∧
    (scoreCombi (Adf.assignScalar 1) wdummy ["P", "Q"]).frequency =
      ((Adf.assignScalar 1).rows.map (fun r => (r wdummy).getD 0 *
        ((["P", "Q"].filter (fun c => decide (r c = some 1))).length : ℤ))).sum :=
  reach_frequency_formula_and_scenarioA.1 (Adf.assignScalar 1) wdummy
    ["P", "Q"] (by decide)

/-- C3: whenever `forced_alt` is given, every row of a successful result has
a combination label that is the join of a column list containing all forced
columns — also when `min_response` is set and a forced column fails it, as
in the concrete call on `Bdf` where the forced column `F` has weighted
positive sum 1 < 2 = `min_response` yet appears in both returned rows. -/
theorem forced_inclusion :
    (∀ (data : DataFrame K) (columns : List String) (size : Int)
      (w : Weights K) (mr : Option K) (f : List String)
      (mx : Option (List String)) (top : Option Nat)
      (res : List (ScoredCombi K)),
      turf data columns size w mr (some f) mx top = .ok res →
      ∀ x ∈ res, ∃ cols, x.combination = String.intercalate ", " cols ∧
        ∀ a ∈ f, a ∈ cols) ∧
    turf Bdf ["F", "G", "H"] 2 .default (some 2) (some ["F"]) none none =
      .ok [⟨2, 3, "G, F"⟩, ⟨2, 3, "H, F"⟩] := by
  constructor
  · intro data columns size w mr f mx top res h x hx
    obtain ⟨scored, hts, hres⟩ := turf_ok_elim h
    rw [hres] at hx
    have hx1 := (List.perm_insertionSort sortRel (selectTop top scored)).mem_iff.mp hx
    have hx2 := mem_selectTop hx1
    obtain ⟨c0, wc, _, hsc⟩ := turfScored_ok_elim hts
    obtain ⟨combi, _, he, _⟩ := scoreCombis_ok_mem hsc x hx2
    refine ⟨combi ++ (some f).getD [], by rw [he]; rfl, ?_⟩
    intro a ha
    exact List.mem_append_right combi (by simpa using ha)
  · rfl

/-- Witness for C3: the general forced-inclusion statement applied to the
concrete `Bdf` call. -/
theorem forced_inclusion_witness :
    ∀ x ∈ [(⟨2, 3, "G, F"⟩ : ScoredCombi ℤ), ⟨2, 3, "H, F"⟩],
      ∃ cols, x.combination = String.intercalate ", " cols ∧
        ∀ a ∈ ["F"], a ∈ cols :=
  forced_inclusion.1 Bdf ["F", "G", "H"] 2 .default (some 2) ["F"] none none
    _ (by rfl)

/-- C4: whenever `mxclusive_alt` is given, every row of a successful result
comes from a column list containing at most one distinct member of it —
combinations with two or more members are silently dropped, as in the
concrete Scenario D call where `{Q,R}` produces no row and no error. -/
theorem exclusivity :
    (∀ (data : DataFrame K) (columns : List String) (size : Int)
      (w : Weights K) (mr : Option K) (fa : Option (List String))
      (m : List String) (top : Option Nat) (res : List (ScoredCombi K)),
      turf data columns size w mr fa (some m) top = .ok res →
      ∀ x ∈ res, ∃ cols, x.combination = String.intercalate ", " cols ∧
        ((cols.filter (fun c => m.contains c)).dedup).length ≤ 1) ∧
    turf Adf ["P", "Q", "R"] 2 .default none none (some ["Q", "R"]) none =
      .ok [⟨4, 4, "P, Q"⟩, ⟨3, 4, "P, R"⟩] := by
  constructor
  · intro data columns size w mr fa m top res h x hx
    obtain ⟨scored, hts, hres⟩ := turf_ok_elim h
    rw [hres] at hx
    have hx1 := (List.perm_insertionSort sortRel (selectTop top scored)).mem_iff.mp hx
    have hx2 := mem_selectTop hx1
    obtain ⟨c0, wc, _, hsc⟩ := turfScored_ok_elim hts
    obtain ⟨combi, _, he, hmx⟩ := scoreCombis_ok_mem hsc x hx2
    refine ⟨combi ++ fa.getD [], by rw [he]; rfl, ?_⟩
    rw [mxSkipB] at hmx
    rw [mxViolationB] at hmx
    have := of_decide_eq_false hmx
    omega
  · rfl

/-- Witness for C4: the general exclusivity statement applied to the
concrete Scenario D call. -/
theorem exclusivity_witness :
    ∀ x ∈ [(⟨4, 4, "P, Q"⟩ : ScoredCombi ℤ), ⟨3, 4, "P, R"⟩],
      ∃ cols, x.combination = String.intercalate ", " cols ∧
        ((cols.filter (fun c => ["Q", "R"].contains c)).dedup).length ≤ 1 :=
  exclusivity.1 Adf ["P", "Q", "R"] 2 .default none none ["Q", "R"] none _ (by rfl)

/-- C5: every table `turf` returns is non-increasing in Reach from the first
row to the last, and among rows with equal Reach non-increasing in
Frequency. -/
theorem sort_order (data : DataFrame K) (columns : List String) (size : Int)
    (w : Weights K) (mr : Option K) (fa mx : Option (List String))
    (top : Option Nat) (res : List (ScoredCombi K))
    (h : turf data columns size w mr fa mx top = .ok res) :
    res.Pairwise (fun a b =>
      b.reach ≤ a.reach ∧ (a.reach = b.reach → b.frequency ≤ a.frequency)) := by
  obtain ⟨scored, _, hres⟩ := turf_ok_elim h
  rw [hres]
  refine (List.sorted_insertionSort sortRel (selectTop top scored)).imp ?_
  intro a b hab
  rcases hab with h1 | ⟨h1, h2⟩
  · exact ⟨le_of_lt h1, fun he => absurd (he ▸ h1) (lt_irrefl _)⟩
  · exact ⟨le_of_eq h1.symm, fun _ => h2⟩

/-- Witness for C5: the sort-order property on the concrete Scenario A
output. -/
theorem sort_order_witness :
    List.Pairwise (fun (a b : ScoredCombi ℤ) =>
      b.reach ≤ a.reach ∧ (a.reach = b.reach → b.frequency ≤ a.frequency))
      [⟨4, 4, "P, Q"⟩, ⟨3, 4, "P, R"⟩, ⟨3, 4, "Q, R"⟩] :=
  sort_order Adf ["P", "Q", "R"] 2 .default none none none none _ (by rfl)

/-- C6: on 0/1 (or missing) indicator data with nonnegative resolved
weights, every scored combination of size at least 1 has Reach at most
Frequency, with equality for combinations of size 1. -/
theorem reach_le_frequency (df : DataFrame K) (weight_col : String)
    (cols : List String)
    (h01 : ∀ r ∈ df.rows, ∀ c ∈ cols, r c = none ∨ r c = some 0 ∨ r c = some 1)
    (hw : ∀ r ∈ df.rows, 0 ≤ (r weight_col).getD 0) :
    (1 ≤ cols.length →
      (scoreCombi df weight_col cols).reach ≤
        (scoreCombi df weight_col cols).frequency) ∧
    (cols.length = 1 →
      (scoreCombi df weight_col cols).reach =
        (scoreCombi df weight_col cols).frequency) := by
  constructor
  · intro _
    exact List.sum_le_sum (fun r hr => reachRow_le_freqRow (h01 r hr) (hw r hr))
  · intro hlen
    obtain ⟨c, rfl⟩ := List.length_eq_one.mp hlen
    exact congrArg List.sum
      (List.map_congr_left (fun r _ => reachRow_eq_freqRow_single))

/-- Witness for C6: Reach at most Frequency (and here Reach < Frequency
fails to be strict equality only for size 2) on Scenario A's table with
the unit weight column and the combination `[P, R]`, plus the size-1
equality on `[P]`. -/
theorem reach_le_frequency_witness :
    ((1 ≤ (["P", "R"] : List String).length →
      (scoreCombi (Adf.assignScalar 1) wdummy ["P", "R"]).reach ≤
        (scoreCombi (Adf.assignScalar 1) wdummy ["P", "R"]).frequency) ∧
    ((["P", "R"] : List String).length = 1 →
      (scoreCombi (Adf.assignScalar 1) wdummy ["P", "R"]).reach =
        (scoreCombi (Adf.assignScalar 1) wdummy ["P", "R"]).frequency)) ∧
    ((1 ≤ (["P"] : List String).length →
      (scoreCombi (Adf.assignScalar 1) wdummy ["P"]).reach ≤
        (scoreCombi (Adf.assignScalar 1) wdummy ["P"]).frequency) ∧
    ((["P"] : List String).length = 1 →
      (scoreCombi (Adf.assignScalar 1) wdummy ["P"]).reach =
        (scoreCombi (Adf.assignScalar 1) wdummy ["P"]).frequency)) :=
  ⟨reach_le_frequency (Adf.assignScalar 1) wdummy ["P", "R"]
      (by decide) (by decide),
    reach_le_frequency (Adf.assignScalar 1) wdummy ["P"]
      (by decide) (by decide)⟩

/-- C2: with `top = t > 0`, a successful call returns exactly
`min t (number of valid combinations)` rows, and no valid combination left
out has a `(reach, frequency)` pair above any returned row's pair — in
particular not above the weakest returned pair.  The valid combinations and
their scores are the rows of the same call without `top`. -/
theorem turf_top_bound (data : DataFrame K) (columns : List String) (size : Int)
    (w : Weights K) (mr : Option K) (fa mx : Option (List String)) (t : Nat)
    (ht : 0 < t) (all res : List (ScoredCombi K))
    (hall : turf data columns size w mr fa mx none = .ok all)
    (hres : turf data columns size w mr fa mx (some t) = .ok res) :
    res.length = min t all.length ∧
    ∀ s ∈ all, s ∉ res → ∀ v ∈ res, pairLe s v := by
  obtain ⟨scored1, hts1, he1⟩ := turf_ok_elim hall
  obtain ⟨scored2, hts2, he2⟩ := turf_ok_elim hres
  rw [hts1] at hts2
  have hss : scored1 = scored2 := by injection hts2
  subst hss
  have hallperm : all.Perm scored1 := by
    rw [he1]
    exact List.perm_insertionSort sortRel scored1
  have hresperm : res.Perm (selectTop (some t) scored1) := by
    rw [he2]
    exact List.perm_insertionSort sortRel (selectTop (some t) scored1)
  obtain ⟨hlen, hdom⟩ := selectTop_some_spec ht scored1
  constructor
  · rw [hresperm.length_eq, hlen, hallperm.length_eq]
  · intro s hs hout v hv
    exact hdom s (hallperm.mem_iff.mp hs)
      (fun hc => hout (hresperm.mem_iff.mpr hc)) v (hresperm.mem_iff.mp hv)

/-- Witness for C2: Scenario E — `top = 1` on Scenario A keeps exactly the
best combination, and neither dropped combination beats it. -/
theorem turf_top_bound_witness :
    ([(⟨4, 4, "P, Q"⟩ : ScoredCombi ℤ)].length =
      min 1 [(⟨4, 4, "P, Q"⟩ : ScoredCombi ℤ), ⟨3, 4, "P, R"⟩,
        ⟨3, 4, "Q, R"⟩].length) ∧
    ∀ s ∈ [(⟨4, 4, "P, Q"⟩ : ScoredCombi ℤ), ⟨3, 4, "P, R"⟩, ⟨3, 4, "Q, R"⟩],
      s ∉ [(⟨4, 4, "P, Q"⟩ : ScoredCombi ℤ)] →
      ∀ v ∈ [(⟨4, 4, "P, Q"⟩ : ScoredCombi ℤ)], pairLe s v :=
  turf_top_bound Adf ["P", "Q", "R"] 2 .default none none none 1 (by decide)
    _ _ (by rfl) (by rfl)

/-- C7 (amended): the validation rejects a `size` above `|columns|` with a
descriptive error, but a non-positive `size` is not rejected: `size = 0`
passes validation and yields the single empty combination (Reach and
Frequency 0), and a negative `size` is rejected only at enumeration setup
(the `itertools.combinations` `ValueError`), after weight resolution and
the eligibility scan of the data. -/
theorem size_validation_amended :
    (∀ (data : DataFrame K) (columns : List String) (size : Int)
      (w : Weights K) (mr : Option K) (fa mx : Option (List String))
      (top : Option Nat) (c0 : DataFrame K) (wc : String),
      resolveWeights data w = .ok (c0, wc) →
      wc ∈ c0.cols →
      subsetB columns c0.cols = true →
      optNotSubsetB fa c0.cols = false →
      optNotSubsetB mx c0.cols = false →
      overlapB fa mx = false →
      (columns.length : Int) < size →
      turf data columns size w mr fa mx top =
        .error "size should be lesser than the total number of columns") ∧
    turf Adf ["P", "Q", "R"] 0 .default none none none none =
      .ok [⟨0, 0, ""⟩] ∧
    (∀ (data : DataFrame K) (columns : List String) (size : Int)
      (w : Weights K) (mr : Option K) (mx : Option (List String))
      (top : Option Nat) (c0 : DataFrame K) (wc : String),
      resolveWeights data w = .ok (c0, wc) →
      wc ∈ c0.cols →
      subsetB columns c0.cols = true →
      optNotSubsetB mx c0.cols = false →
      size < 0 →
      turf data columns size w mr none mx top =
        .error "r must be non-negative") := by
  refine ⟨?_, by rfl, ?_⟩
  · intro data columns size w mr fa mx top c0 wc hrw hwc hsub hfa hmx hov hsz
    have hts : turfScored data columns size w mr fa mx =
        .error "size should be lesser than the total number of columns" := by
      unfold turfScored
      rw [hrw]
      simp [hwc, hsub, hfa, hmx, hov, hsz]
    unfold turf
    rw [hts]
  · intro data columns size w mr mx top c0 wc hrw hwc hsub hmx hneg
    have hts : turfScored data columns size w mr none mx =
        .error "r must be non-negative" := by
      unfold turfScored
      rw [hrw]
      have hsz : ¬ (columns.length : Int) < size := by omega
      simp [hwc, hsub, hmx, hsz, hneg,
        (show optNotSubsetB none c0.cols = false from rfl),
        (show overlapB none mx = false from rfl),
        (show forcedSizeViolB none columns size = false from rfl),
        (show updatedSize size none = size from rfl)]
    unfold turf
    rw [hts]

/-- C7 counterexample: `size = 0` is not a positive integer, yet `turf`
raises no error at all — validation passes and the call returns the single
empty combination with Reach = Frequency = 0 (the claim asserts a
descriptive error is raised before any computation). -/
theorem size_zero_counterexample :
    turf Adf ["P", "Q", "R"] 0 .default none none none none =
      .ok [⟨0, 0, ""⟩] := by rfl

/-- Witness for C7 (amended): the upper-bound rejection fires on Scenario
A's table with `size = 5 > 3` columns. -/
theorem size_validation_amended_witness :
    turf Adf ["P", "Q", "R"] 5 .default none none none none =
      .error "size should be lesser than the total number of columns" :=
  size_validation_amended.1 Adf ["P", "Q", "R"] 5 .default none none none
    none (Adf.assignScalar 1) wdummy (by rfl) (by decide) (by decide)
    (by decide) (by decide) (by decide) (by decide)

/-- C8 (amended): the subset validation of `forced_alt` and `mxclusive_alt`
is against the data's columns, not against `columns`: an identifier absent
from the data is rejected during validation with a descriptive error, but
an identifier present in the data while absent from `columns` passes
validation — such a `mxclusive_alt` entry is silently ignored (the call
succeeds), and such a `forced_alt` entry fails only at scoring time, after
enumeration has begun, with a missing-column (KeyError) error. -/
theorem subset_validation_amended :
    (∀ (data : DataFrame K) (columns : List String) (size : Int)
      (w : Weights K) (mr : Option K) (fa mx : Option (List String))
      (top : Option Nat) (c0 : DataFrame K) (wc : String),
      resolveWeights data w = .ok (c0, wc) →
      wc ∈ c0.cols →
      subsetB columns c0.cols = true →
      optNotSubsetB fa c0.cols = true →
      turf data columns size w mr fa mx top =
        .error "forced_alt is not subset in data") ∧
    (∀ (data : DataFrame K) (columns : List String) (size : Int)
      (w : Weights K) (mr : Option K) (fa mx : Option (List String))
      (top : Option Nat) (c0 : DataFrame K) (wc : String),
      resolveWeights data w = .ok (c0, wc) →
      wc ∈ c0.cols →
      subsetB columns c0.cols = true →
      optNotSubsetB fa c0.cols = false →
      optNotSubsetB mx c0.cols = true →
      turf data columns size w mr fa mx top =
        .error "mxclusive_alt is not subset in data") ∧
    turf Adf ["P", "Q"] 2 .default none none (some ["R"]) none =
      .ok [⟨4, 4, "P, Q"⟩] ∧
    turf Adf ["P", "Q"] 2 .default none (some ["R"]) none none =
      .error "KeyError: combination column not in index" := by
  refine ⟨?_, ?_, by rfl, by rfl⟩
  · intro data columns size w mr fa mx top c0 wc hrw hwc hsub hfa
    have hts : turfScored data columns size w mr fa mx =
        .error "forced_alt is not subset in data" := by
      unfold turfScored
      rw [hrw]
      simp [hwc, hsub, hfa]
    unfold turf
    rw [hts]
  · intro data columns size w mr fa mx top c0 wc hrw hwc hsub hfa hmx
    have hts : turfScored data columns size w mr fa mx =
        .error "mxclusive_alt is not subset in data" := by
      unfold turfScored
      rw [hrw]
      simp [hwc, hsub, hfa, hmx]
    unfold turf
    rw [hts]

/-- C8 counterexample: `mxclusive_alt = ["R"]` contains an identifier that
is not a member of `columns = ["P", "Q"]` (it is a data column), yet the
call raises no error during validation or at all — it succeeds, silently
ignoring the entry (the claim asserts an error is raised during validation,
before enumeration). -/
theorem mxclusive_not_in_columns_counterexample :
    turf Adf ["P", "Q"] 2 .default none none (some ["R"]) none =
      .ok [(⟨4, 4, "P, Q"⟩ : ScoredCombi ℤ)] := by rfl

/-- Witness for C8 (amended): a forced column absent from the data is
rejected during validation. -/
theorem subset_validation_amended_witness :
    turf Adf ["P", "Q"] 2 .default none (some ["Z"]) none none =
      .error "forced_alt is not subset in data" :=
  subset_validation_amended.1 Adf ["P", "Q"] 2 .default none (some ["Z"])
    none none (Adf.assignScalar 1) wdummy (by rfl) (by decide) (by decide)
    (by decide)

theorem combinations_eq_nil : ∀ {l : List String} {k : Nat},
    l.length < k → combinations l k = [] := by
  intro l
  induction l with
  | nil =>
    intro k hk
    cases k with
    | zero => simp at hk
    | succ k' => rfl
  | cons c cs ih =>
    intro k hk
    cases k with
    | zero => simp at hk
    | succ k' =>
      rw [combinations]
      have h1 : cs.length < k' := by simp at hk; omega
      have h2 : cs.length < k' + 1 := by omega
      rw [ih h1, ih h2]
      rfl

/-- C9: on a valid call whose eligible pool is smaller than the enumeration
size (`size` minus the number of forced columns), `turf` returns an empty
table and raises nothing. -/
theorem empty_pool_empty_result (data : DataFrame K) (columns : List String)
    (size : Int) (w : Weights K) (mr : Option K)
    (fa mx : Option (List String)) (top : Option Nat)
    (c0 : DataFrame K) (wc : String)
    (hrw : resolveWeights data w = .ok (c0, wc))
    (hwc : wc ∈ c0.cols)
    (hsub : subsetB columns c0.cols = true)
    (hfa : optNotSubsetB fa c0.cols = false)
    (hmx : optNotSubsetB mx c0.cols = false)
    (hov : overlapB fa mx = false)
    (hsz : ¬ (columns.length : Int) < size)
    (hfs : forcedSizeViolB fa columns size = false)
    (hupd : ¬ updatedSize size fa < 0)
    (hpool : (filtColumns (c0.select (columns ++ [wc])) wc columns mr fa).length <
      (updatedSize size fa).toNat) :
    turf data columns size w mr fa mx top = .ok [] := by
  have hts : turfScored data columns size w mr fa mx = .ok [] := by
    unfold turfScored
    rw [hrw]
    simp only [hwc, hsub, hfa, hmx, hov, hsz, hfs, hupd, not_false_eq_true,
      not_true_eq_false, if_false, if_true, ite_false, ite_true,
      Bool.false_eq_true, not_not]
    rw [combinations_eq_nil hpool]
    rfl
  unfold turf
  rw [hts]
  cases top <;> rfl

/-- Witness for C9: Scenario B — `min_response = 3` filters all of `P`, `Q`,
`R` (weighted positive sums 2) out of the pool, so the pool is empty and
smaller than the enumeration size 2; the result is an empty table, not an
error. -/
theorem empty_pool_empty_result_witness :
    turf Adf ["P", "Q", "R"] 2 .default (some 3) none none none =
      .ok ([] : List (ScoredCombi ℤ)) :=
  empty_pool_empty_result Adf ["P", "Q", "R"] 2 .default (some 3) none none
    none (Adf.assignScalar 1) wdummy (by rfl) (by decide) (by decide)
    (by decide) (by decide) (by decide) (by decide) (by decide) (by decide)
    (by decide)
